import Mathlib

/-!
Shallow embedding of the graph-assembly and concurrency core of the
cluster-insight data collector (src/collector), together with proofs about
the frozen specification claims.

Conventions of the embedding:
* Python strings are `String`; ISO-8601 timestamps (produced by
  `utilities.now()`) stay `String`s and are compared lexicographically, as in
  the source.  Wall-clock seconds (Python floats) are modelled as `Int`.
* Python dictionaries that are mutated by the code are association lists with
  the usual replace-or-append assignment; `copy.deepcopy` of an immutable
  model value is the identity.
* Mutating methods become state-passing functions; a method that can raise
  returns `Except`.  Where a partially-mutated object survives the raise, the
  error value carries that object.
-/

namespace ClusterInsight

/-- Association-list lookup, mirroring Python `dict.get`. -/
def alistLookup {K V : Type} [DecidableEq K] : List (K × V) → K → Option V
  | [], _ => none
  | (k', v) :: rest, k => if k' = k then some v else alistLookup rest k

/-- Association-list assignment `d[k] = v`: replace in place, else append. -/
def alistInsert {K V : Type} [DecidableEq K] : List (K × V) → K → V → List (K × V)
  | [], k, v => [(k, v)]
  | (k', v') :: rest, k, v =>
      if k' = k then (k, v) :: rest else (k', v') :: alistInsert rest k v

/-- Model of `utilities.valid_string(x)`: true iff `x` is a (present) non-empty string.
The model applies it to `Option String` values coming from `dict.get`. -/
def valid_string : Option String → Bool
  | some s => s != ""
  | none => false

/-- A relation's identity triple `(source, target, kind)`. -/
abbrev RelKey := String × String × String

/-- The `(source, target, kind) -> timestamp` maps kept by `ContextGraph`. -/
abbrev TsMap := List (RelKey × String)

def tsLookup (m : TsMap) (k : RelKey) : Option String := alistLookup m k

def tsInsert (m : TsMap) (k : RelKey) (v : String) : TsMap := alistInsert m k v

/-- Model of the opaque `metadata` dictionary argument of `add_relation`. -/
abbrev Metadata := List (String × String)

/-- Model of the opaque `properties` payload of a wrapped resource. -/
abbrev Properties := List (String × String)

/-- The `annotations` dictionary attached to resources and relations.  A
`none` field is an absent key (`utilities.get_attribute` returns `None`). -/
structure Annotations where
  label : Option String := none
  alternateLabel : Option String := none
  createdBy : Option String := none
  metadata : Option Metadata := none
  deriving DecidableEq, Repr

/-- A wrapped resource as stored by `ContextGraph.add_resource`. -/
structure Resource where
  id : String
  type : String
  timestamp : String
  annotations : Annotations
  properties : Properties
  deriving DecidableEq, Repr

/-- A relation as stored by `ContextGraph.add_relation`. -/
structure Relation where
  source : String
  target : String
  type : String
  timestamp : String
  annotations : Annotations
  deriving DecidableEq, Repr

/-- The state of `context.ContextGraph` (the `_lock`, `_graph_metadata` and
`_graph_title` fields play no role in the claims and are omitted; methods
of the class run under the single instance lock). -/
structure ContextGraph where
  context_resources : List Resource := []
  context_relations : List Relation := []
  version : Option String := none
  id_set : List String := []
  previous_relations_to_timestamps : TsMap := []
  current_relations_to_timestamps : TsMap := []
  deriving DecidableEq, Repr

/-- The `ContextGraph._graph_color` lookup table. -/
def graph_color (rtype : String) : Option String :=
  if rtype = "Cluster" then some "black"
  else if rtype = "Node" then some "red"
  else if rtype = "Service" then some "darkgreen"
  else if rtype = "ReplicationController" then some "purple"
  else if rtype = "Pod" then some "blue"
  else if rtype = "Container" then some "green"
  else if rtype = "Process" then some "gold"
  else if rtype = "Image" then some "maroon"
  else none

def ContextGraph.get_relations_to_timestamps (g : ContextGraph) : TsMap :=
  g.current_relations_to_timestamps

def ContextGraph.set_relations_to_timestamps (g : ContextGraph) (d : TsMap) : ContextGraph :=
  { g with previous_relations_to_timestamps := d }

/-- The resource dictionary built inside `add_resource`: a deep copy of the
annotations, with `createdBy` stamped when a version is set, then the
`properties` payload. -/
def mk_resource (version : Option String) (rid : String) (ann : Annotations)
    (rtype timestamp : String) (obj : Properties) : Resource :=
  { id := rid, type := rtype, timestamp := timestamp,
    annotations :=
      match version with
      | some v => { ann with createdBy := some v }
      | none => ann,
    properties := obj }

/-- Model of `ContextGraph.add_resource` (context.py:105-134): a no-op when `rid` is
already in `_id_set`, otherwise appends the resource and records the id. -/
def ContextGraph.add_resource (g : ContextGraph) (rid : String) (ann : Annotations)
    (rtype timestamp : String) (obj : Properties) : ContextGraph :=
  if rid ∈ g.id_set then g
  else
    { g with
      context_resources := g.context_resources ++ [mk_resource g.version rid ann rtype timestamp obj],
      id_set := rid :: g.id_set }

/-- The timestamp chosen by `add_relation` (context.py:146-149): the entry of
the previous-build snapshot when it is a valid non-empty string, else the
freshly minted `utilities.now()` value (`nowTs`). -/
def inherited_timestamp (prev : TsMap) (key : RelKey) (nowTs : String) : String :=
  let ts := tsLookup prev key
  if valid_string ts then ts.getD nowTs else nowTs

/-- Model of `copy.deep_copy` as invoked by `add_relation` (context.py:163).  The
Python `copy` module defines `deepcopy` but no attribute `deep_copy`, so the
attribute access raises `AttributeError` and the call never yields a value;
the model therefore always returns `none`. -/
def copy_deep_copy (_m : Metadata) : Option Metadata := none

/-- Model of `ContextGraph.add_relation` (context.py:136-169).  The error value is the
state of the graph at the instant the `AttributeError` from
`copy.deep_copy` escapes: the `(source,target,kind) -> timestamp` entry is
already written to `_current_relations_to_timestamps`, the relation has not
been appended. -/
def ContextGraph.add_relation (g : ContextGraph) (nowTs : String)
    (source target kind : String) (label : Option String)
    (metadata : Option Metadata) : Except ContextGraph ContextGraph :=
  let key : RelKey := (source, target, kind)
  let timestamp := inherited_timestamp g.previous_relations_to_timestamps key nowTs
  let g1 := { g with current_relations_to_timestamps :=
                tsInsert g.current_relations_to_timestamps key timestamp }
  match metadata with
  | some m =>
      match copy_deep_copy m with
      | some md =>
          let rel : Relation :=
            { source := source, target := target, type := kind, timestamp := timestamp,
              annotations := { label := some (label.getD kind), metadata := some md,
                               createdBy := g1.version } }
          .ok { g1 with context_relations := g1.context_relations ++ [rel] }
      | none => .error g1
  | none =>
      let rel : Relation :=
        { source := source, target := target, type := kind, timestamp := timestamp,
          annotations := { label := some (label.getD kind), createdBy := g1.version } }
      .ok { g1 with context_relations := g1.context_relations ++ [rel] }

def ContextGraph.set_version (g : ContextGraph) (v : String) : ContextGraph :=
  { g with version := some v }

/-! Rendering (context.py:186-297). -/

/-- A hexadecimal digit, as matched by the character class `[0-9a-fA-F]`. -/
def isHexChar (c : Char) : Bool :=
  ('0' ≤ c && c ≤ '9') || ('a' ≤ c && c ≤ 'f') || ('A' ≤ c && c ≤ 'F')

/-- Truthiness of `re.search('[^0-9a-fA-F]', s)`: true iff some character is not hex. -/
def non_hex_search (s : String) : Bool := s.any (fun c => !(isHexChar c))

/-- Model of `ContextGraph.best_label` (context.py:228-257): prefer `alternateLabel`
over `label`, and a string with a non-hexadecimal character over one made of
hex digits only. -/
def best_label (a : Annotations) : String :=
  let altOk := valid_string a.alternateLabel
  let lblOk := valid_string a.label
  let altStr := a.alternateLabel.getD ""
  let lblStr := a.label.getD ""
  if altOk && non_hex_search altStr then altStr
  else if lblOk && non_hex_search lblStr then lblStr
  else if altOk then altStr
  else if lblOk then lblStr
  else "<unknown>"

def dquote : String := "\""

def lbrace : String := "\x7b"

def rbrace : String := "\x7d"

/-- One resource item of the DOT output, labels shown (context.py:263-268). -/
def dot_resource_item (r : Resource) : String :=
  dquote ++ r.id ++ dquote ++ "[label=" ++ dquote ++ r.type ++ ":" ++ best_label r.annotations
    ++ dquote ++ ",color=" ++ (graph_color r.type).getD "black" ++ "]"

/-- One resource item of the DOT output, labels hidden (context.py:270-274). -/
def dot_resource_item_unlabeled (r : Resource) : String :=
  dquote ++ r.id ++ dquote ++ "[label=" ++ dquote ++ dquote ++ ",fillcolor="
    ++ (graph_color r.type).getD "black" ++ ",style=filled]"

/-- One relation item of the DOT output (context.py:275-278). -/
def dot_relation_item (rel : Relation) : String :=
  dquote ++ rel.source ++ dquote ++ "->" ++ dquote ++ rel.target ++ dquote
    ++ "[label=" ++ dquote ++ best_label rel.annotations ++ dquote ++ "]"

/-- Model of `ContextGraph.to_dot_graph` (context.py:259-281). -/
def ContextGraph.to_dot_graph (g : ContextGraph) (show_node_labels : Bool) : String :=
  let resource_list :=
    if show_node_labels then g.context_resources.map dot_resource_item
    else g.context_resources.map dot_resource_item_unlabeled
  let relation_list := g.context_relations.map dot_relation_item
  "digraph" ++ lbrace ++ String.intercalate ";" (resource_list ++ relation_list) ++ rbrace

/-- One folding step of `max_resources_and_relations_timestamp`: keep the
lexicographically larger timestamp (`r['timestamp'] > max_timestamp`). -/
def max_ts_fold (acc : Option String) (ts : String) : Option String :=
  match acc with
  | none => some ts
  | some m => if m < ts then some ts else some m

/-- Model of `ContextGraph.max_resources_and_relations_timestamp` (context.py:186-204):
the maximum timestamp over all resources then all relations, or the current
time `nowTs` when there are none. -/
def ContextGraph.max_resources_and_relations_timestamp (g : ContextGraph) (nowTs : String) : String :=
  let acc1 := (g.context_resources.map Resource.timestamp).foldl max_ts_fold none
  let acc2 := (g.context_relations.map Relation.timestamp).foldl max_ts_fold acc1
  acc2.getD nowTs

/-- The `resources`-only success envelope (context.py:218-226). -/
structure ResourcesOut where
  success : Bool
  timestamp : String
  resources : List Resource
  deriving DecidableEq, Repr

/-- The full `context_graph` success envelope (context.py:206-216). -/
structure GraphOut where
  success : Bool
  timestamp : String
  resources : List Resource
  relations : List Relation
  deriving DecidableEq, Repr

def ContextGraph.to_context_graph (g : ContextGraph) (nowTs : String) : GraphOut :=
  { success := true, timestamp := g.max_resources_and_relations_timestamp nowTs,
    resources := g.context_resources, relations := g.context_relations }

def ContextGraph.to_context_resources (g : ContextGraph) (nowTs : String) : ResourcesOut :=
  { success := true, timestamp := g.max_resources_and_relations_timestamp nowTs,
    resources := g.context_resources }

/-- The value returned by a successful `ContextGraph.dump`. -/
inductive DumpOut
  | dot (text : String)
  | graph (envelope : GraphOut)
  | resources (envelope : ResourcesOut)
  deriving DecidableEq, Repr

/-- Model of `ContextGraph.dump` (context.py:283-297).  A `CollectorError` is the
`Except.error` case, carrying the error message. -/
def ContextGraph.dump (g : ContextGraph) (nowTs : String) (output_format : String) :
    Except String DumpOut :=
  if output_format = "dot" then .ok (.dot (g.to_dot_graph true))
  else if output_format = "context_graph" then .ok (.graph (g.to_context_graph nowTs))
  else if output_format = "resources" then .ok (.resources (g.to_context_resources nowTs))
  else .error ("invalid dump() output_format: " ++ output_format)

/-! The TTL/dedup cache (simple_cache.py).  Wall-clock seconds are `Int`;
`timeless_json_hash` enters `update` only through equality of hash values, so
the model takes the hash function as an explicit parameter. -/

/-- One cache slot: the named tuple `(create_timestamp, update_timestamp, value)`. -/
structure CacheEntry (V : Type) where
  create_timestamp : Int
  update_timestamp : Int
  value : V
  deriving DecidableEq, Repr

/-- The `simple_cache.SimpleCache` state.  The constructor asserts
`0 ≤ max_data_age_seconds ≤ data_cleanup_age_seconds`; theorems that need
these facts take them as hypotheses. -/
structure SimpleCache (V : Type) where
  max_data_age_seconds : Int
  data_cleanup_age_seconds : Int
  label_to_tuple : List (String × CacheEntry V) := []
  deriving DecidableEq, Repr

/-- Replace the lookup table of a cache (the other fields are immutable). -/
def SimpleCache.withTable {V : Type} (c : SimpleCache V)
    (tbl : List (String × CacheEntry V)) : SimpleCache V :=
  { c with label_to_tuple := tbl }

/-- Model of `SimpleCache._cleanup` (simple_cache.py:108-126): delete every entry with
`create_timestamp <= now - data_cleanup_age_seconds`. -/
def SimpleCache.cleanup {V : Type} (c : SimpleCache V) (now : Int) : SimpleCache V :=
  let threshold := now - c.data_cleanup_age_seconds
  { c with label_to_tuple :=
      c.label_to_tuple.filter (fun p => decide (threshold < p.2.create_timestamp)) }

/-- Model of `SimpleCache.lookup` (simple_cache.py:128-161): a hit (deep copy of the
value and its creation time) only when `now < update_timestamp + max age`. -/
def SimpleCache.lookup {V : Type} (c : SimpleCache V) (label : String) (now : Int) :
    Option V × Option Int :=
  match alistLookup c.label_to_tuple label with
  | some e =>
      if now < e.update_timestamp + c.max_data_age_seconds then
        (some e.value, some e.create_timestamp)
      else (none, none)
  | none => (none, none)

/-- Model of `SimpleCache.update` (simple_cache.py:163-215) with an explicit
`update_timestamp`; `hash` stands for `utilities.timeless_json_hash`.
Returns the Python return value paired with the new cache state: first the
cleanup runs at `ts`, then a hash-equal existing entry keeps its value and
creation time (returning the deep-copied old value) while anything else is
stored fresh with both timestamps set to `ts` (returning `value`). -/
def SimpleCache.update {V : Type} (hash : V → Nat) (c : SimpleCache V) (label : String)
    (value : V) (update_timestamp : Int) : V × SimpleCache V :=
  let ts := update_timestamp
  let c1 := c.cleanup ts
  match alistLookup c1.label_to_tuple label with
  | some e =>
      if hash value = hash e.value then
        let kept : CacheEntry V := ⟨e.create_timestamp, ts, e.value⟩
        (e.value, { c1 with label_to_tuple := alistInsert c1.label_to_tuple label kept })
      else
        let fresh : CacheEntry V := ⟨ts, ts, value⟩
        (value, { c1 with label_to_tuple := alistInsert c1.label_to_tuple label fresh })
  | none =>
      let fresh : CacheEntry V := ⟨ts, ts, value⟩
      (value, { c1 with label_to_tuple := alistInsert c1.label_to_tuple label fresh })

def SimpleCache.size {V : Type} (c : SimpleCache V) : Nat := c.label_to_tuple.length

/-! The long-lived Coordination State (global_state.py). -/

/-- Value of `constants.MAX_CONCURRENT_COMPUTE_GRAPH`. -/
def MAX_CONCURRENT_COMPUTE_GRAPH : Nat := 2

/-- Value of `constants.MAX_ELAPSED_QUEUE_SIZE`. -/
def MAX_ELAPSED_QUEUE_SIZE : Nat := 1000

/-- One elapsed-time record, as inspected by `global_state_test.py` and
`collector.return_elapsed`. -/
structure ElapsedRecord where
  start_time : Int
  what : String
  thread_identifier : Nat
  elapsed_seconds : Int
  deriving DecidableEq, Repr

/-- Modelled from the spec: the file `global_state.py` under `src/` defines
`GlobalState` without the relation-timestamp holder and without the
elapsed-time recorder, although `context.py`, `collector.py` and
`global_state_test.py` all use them (`get_relations_to_timestamps`,
`set_relations_to_timestamps`, `add_elapsed`, `get_elapsed`).  Per the spec:
"The previous-build timestamp map is the only state that survives across
builds, held by the long-lived Coordination State", and the recorder
"appends to a bounded FIFO (oldest entries dropped first when over capacity)"
while the drain call "returns and empties the buffer".  Only these two
mutable fields are modelled. -/
structure GlobalState where
  relations_to_timestamps : TsMap := []
  elapsed_queue : List ElapsedRecord := []
  deriving DecidableEq, Repr

def GlobalState.get_relations_to_timestamps (gs : GlobalState) : TsMap :=
  gs.relations_to_timestamps

def GlobalState.set_relations_to_timestamps (gs : GlobalState) (m : TsMap) : GlobalState :=
  { gs with relations_to_timestamps := m }

/-- Modelled from the spec: `record(startTime, label, duration)` "appends to a
bounded FIFO (oldest entries dropped first when over capacity)".  The calling
thread's identifier is recorded with the entry (global_state_test.py checks
`thread.get_ident()`), so the model takes it as an argument. -/
def GlobalState.add_elapsed (gs : GlobalState) (start_time : Int) (what : String)
    (elapsed_seconds : Int) (thread_identifier : Nat) : GlobalState :=
  let q := gs.elapsed_queue ++ [⟨start_time, what, thread_identifier, elapsed_seconds⟩]
  { gs with elapsed_queue :=
      if MAX_ELAPSED_QUEUE_SIZE < q.length then q.drop (q.length - MAX_ELAPSED_QUEUE_SIZE)
      else q }

/-- Modelled from the spec: "`drainAll()` returns and empties the buffer". -/
def GlobalState.get_elapsed (gs : GlobalState) : List ElapsedRecord × GlobalState :=
  (gs.elapsed_queue, { gs with elapsed_queue := [] })

/-! The worker loop (context.py:693-737) and the tail of `_do_compute_graph`
(context.py:674-690), modelled as one worker deterministically draining the
queue contents. -/

/-- What executing one dequeued task function does: it returns, raises the
shared `CollectorError` kind, or raises any other exception (recorded with
`str(func)`, `str(kwargs)` and `sys.exc_info()[0]`). -/
inductive TaskOutcome
  | ok
  | collector_error (msg : String)
  | other_exception (func_str kwargs_str exc_str : String)
  deriving DecidableEq, Repr

/-- The message the worker pushes on the output queue for a failing task
(context.py:727-735), `none` when the task succeeded. -/
def task_error_message : TaskOutcome → Option String
  | .ok => none
  | .collector_error msg => some msg
  | .other_exception f k e =>
      some ("calling " ++ f ++ " with arguments " ++ k ++ " failed with exception " ++ e)

/-- Model of `worker` (context.py:693-737): repeatedly pull `(priority, func, kwargs)`
items (`none` is the `func is None` sentinel), run the task, push the error
message of a failing task on the output queue, mark the task done, and loop;
exit only at the sentinel.  Returns the final output queue and the number of
tasks marked done.  An exhausted list means the thread is blocked in
`input_queue.get()` with no further task completed. -/
def worker : List (Option TaskOutcome) → List String → List String × Nat
  | [], out => (out, 0)
  | none :: _, out => (out, 0)
  | some t :: rest, out =>
      let out' := match task_error_message t with
        | some msg => out ++ [msg]
        | none => out
      let r := worker rest out'
      (r.1, r.2 + 1)

/-- The error messages a task list contributes to the output queue, in order. -/
def worker_error_messages (ts : List TaskOutcome) : List String :=
  ts.filterMap task_error_message

/-- The tail of `_do_compute_graph` after `input_queue.join()` returns
(context.py:674-690): when the output queue is non-empty, raise a
`CollectorError` with its first message; otherwise persist the accumulator's
current relation-timestamp map into the global state and dump the graph. -/
def build_epilogue (gs : GlobalState) (g : ContextGraph) (nowTs : String)
    (output_format : String) (output_queue : List String) :
    Except String (GlobalState × DumpOut) :=
  match output_queue with
  | msg :: _ => .error msg
  | [] =>
      let gs' := gs.set_relations_to_timestamps g.get_relations_to_timestamps
      (g.dump nowTs output_format).map (fun d => (gs', d))

/-! The relation-level model of one successful graph build.  The worker tasks
of `_do_compute_graph` contribute to the accumulator through `add_resource`
and `add_relation`; relation-timestamp behaviour across builds depends only
on the sequence of `add_relation` calls, so a build is modelled as the list
of those calls, with `clock n` the value `utilities.now()` returns at the
n-th call of the build. -/

/-- One `add_relation(source, target, kind, label)` call of a build (the
in-repo callers never pass `metadata`). -/
structure RelAdd where
  source : String
  target : String
  kind : String
  label : Option String := none
  deriving DecidableEq, Repr

def RelAdd.key (i : RelAdd) : RelKey := (i.source, i.target, i.kind)

/-- The relation record `add_relation` appends for call `i` with chosen
timestamp `ts`. -/
def build_relation (version : Option String) (i : RelAdd) (ts : String) : Relation :=
  { source := i.source, target := i.target, type := i.kind, timestamp := ts,
    annotations := { label := some (i.label.getD i.kind), createdBy := version } }

/-- Run one `add_relation` call with `metadata=None`; such a call never takes
the `copy.deep_copy` error path, and the error case (carrying the mutated
graph) is kept only to stay total. -/
def apply_rel_add (g : ContextGraph) (nowTs : String) (i : RelAdd) : ContextGraph :=
  match g.add_relation nowTs i.source i.target i.kind i.label none with
  | .ok g' => g'
  | .error g' => g'

/-- Run the build's `add_relation` calls in order; `n` numbers the calls so
that `clock n` is the `utilities.now()` of the n-th call. -/
def run_rel_adds (g : ContextGraph) (clock : Nat → String) (n : Nat) :
    List RelAdd → ContextGraph
  | [] => g
  | i :: rest => run_rel_adds (apply_rel_add g (clock n) i) clock (n + 1) rest

/-- The successful-build path of `_do_compute_graph` (context.py:585-690)
restricted to relation bookkeeping: seed a fresh accumulator with the
previous build's map from the global state
(`g.set_relations_to_timestamps(gs.get_relations_to_timestamps())`), run the
build's `add_relation` calls, and persist the accumulator's current map back
(`gs.set_relations_to_timestamps(g.get_relations_to_timestamps())`). -/
def compute_graph_relations (gs : GlobalState) (adds : List RelAdd) (clock : Nat → String) :
    ContextGraph × GlobalState :=
  let g0 := ContextGraph.set_relations_to_timestamps {} gs.get_relations_to_timestamps
  let g := run_rel_adds g0 clock 0 adds
  (g, gs.set_relations_to_timestamps g.get_relations_to_timestamps)

/-! The bounded-concurrency gate of `compute_graph` (context.py:740-796,
global_state.py:99-100): each call runs its whole build inside
`with gs.get_bounded_semaphore()`, a `threading.BoundedSemaphore` of capacity
`MAX_CONCURRENT_COMPUTE_GRAPH`.  The gate is modelled as a transition system
over the phases of the concurrent callers. -/

/-- The phase of one `compute_graph` caller: blocked in the semaphore
acquire, running its build inside the `with` block, or returned (normally or
by propagating an exception; the `with` statement releases either way). -/
inductive BuildPhase
  | waiting
  | building
  | done
  deriving DecidableEq, Repr

/-- Number of threads currently in phase `p`. -/
def phaseCount (p : BuildPhase) : List BuildPhase → Nat
  | [] => 0
  | q :: rest => (if q = p then 1 else 0) + phaseCount p rest

/-- Semaphore count plus the phase of every caller thread. -/
structure PoolState where
  sem : Nat
  threads : List BuildPhase
  deriving DecidableEq, Repr

/-- The transitions: `acquire` moves a waiting caller into its build and is
enabled only when the semaphore count is positive (`sem + 1` on the left) —
a waiting caller has no other transition, so it blocks, and is never
rejected; `finish` ends a build that returned normally (`ok = true`) or
raised (`ok = false`) — in both cases the `with` block releases the
semaphore. -/
inductive SemStep : PoolState → PoolState → Prop
  | acquire (sem : Nat) (ts : List BuildPhase) (i : Nat)
      (h : ts.get? i = some BuildPhase.waiting) :
      SemStep ⟨sem + 1, ts⟩ ⟨sem, ts.set i BuildPhase.building⟩
  | finish (sem : Nat) (ts : List BuildPhase) (i : Nat) (ok : Bool)
      (h : ts.get? i = some BuildPhase.building) :
      SemStep ⟨sem, ts⟩ ⟨sem + 1, ts.set i BuildPhase.done⟩

/-- Start state: `n` caller threads about to call `compute_graph`, semaphore fresh from
`init_caches_and_synchronization`. -/
def poolStart (n : Nat) : PoolState :=
  ⟨MAX_CONCURRENT_COMPUTE_GRAPH, List.replicate n BuildPhase.waiting⟩

/-- States reachable by the gate from the start state. -/
def PoolReachable (n : Nat) (s : PoolState) : Prop :=
  Relation.ReflTransGen SemStep (poolStart n) s

/-- The gate properties claimed for `compute_graph` callers: never more than
`MAX_CONCURRENT_COMPUTE_GRAPH` builds in flight, the semaphore count always
accounts exactly for the free slots, a blocked caller can only stay blocked
or enter its build (never be rejected), a blocked caller can proceed as soon
as a slot is free, and a builder — whether its build returns or raises —
always has the releasing exit step available. -/
def pool_gate_properties (s : PoolState) : Prop :=
  phaseCount BuildPhase.building s.threads ≤ MAX_CONCURRENT_COMPUTE_GRAPH
  ∧ s.sem + phaseCount BuildPhase.building s.threads = MAX_CONCURRENT_COMPUTE_GRAPH
  ∧ (∀ s', SemStep s s' → ∀ i, s.threads.get? i = some BuildPhase.waiting →
      s'.threads.get? i = some BuildPhase.waiting ∨ s'.threads.get? i = some BuildPhase.building)
  ∧ (∀ i, s.threads.get? i = some BuildPhase.waiting →
      phaseCount BuildPhase.building s.threads < MAX_CONCURRENT_COMPUTE_GRAPH →
      ∃ s', SemStep s s' ∧ s'.threads.get? i = some BuildPhase.building)
  ∧ (∀ i, s.threads.get? i = some BuildPhase.building → ∀ _ok : Bool,
      ∃ s', SemStep s s' ∧ s'.sem = s.sem + 1 ∧ s'.threads.get? i = some BuildPhase.done)

/-! Reference functions used to state and prove the cross-build timestamp
claims; the theorems below establish that `run_rel_adds` realizes them. -/

/-- The timestamps `add_relation` assigns to the calls of a build, in call
order (the previous-build snapshot is fixed for the whole build). -/
def assign_ts (prev : TsMap) (clock : Nat → String) (n : Nat) : List RelAdd → List String
  | [] => []
  | i :: rest => inherited_timestamp prev i.key (clock n) :: assign_ts prev clock (n + 1) rest

/-- The relation records appended for calls `adds` with chosen timestamps `tss`. -/
def zip_relations (version : Option String) : List RelAdd → List String → List Relation
  | i :: rest, ts :: tss => build_relation version i ts :: zip_relations version rest tss
  | _, _ => []

/-- The current-build timestamp map after the calls `adds` wrote the
timestamps `tss`. -/
def final_map (cur : TsMap) : List RelAdd → List String → TsMap
  | i :: rest, ts :: tss => final_map (tsInsert cur i.key ts) rest tss
  | _, _ => cur

/-! Association-list lemmas shared by the cache and timestamp-map proofs. -/

lemma alistLookup_nil {K V : Type} [DecidableEq K] (k : K) :
    alistLookup ([] : List (K × V)) k = none := rfl

lemma alistLookup_cons {K V : Type} [DecidableEq K] (k' : K) (v' : V) (rest : List (K × V))
    (k : K) :
    alistLookup ((k', v') :: rest) k = if k' = k then some v' else alistLookup rest k := rfl

lemma alistInsert_nil {K V : Type} [DecidableEq K] (k : K) (v : V) :
    alistInsert ([] : List (K × V)) k v = [(k, v)] := rfl

lemma alistInsert_cons {K V : Type} [DecidableEq K] (k' : K) (v' : V) (rest : List (K × V))
    (k : K) (v : V) :
    alistInsert ((k', v') :: rest) k v
      = if k' = k then (k, v) :: rest else (k', v') :: alistInsert rest k v := rfl

lemma alistLookup_insert_self {K V : Type} [DecidableEq K] (m : List (K × V)) (k : K) (v : V) :
    alistLookup (alistInsert m k v) k = some v := by
  induction m with
  | nil => simp [alistInsert_nil, alistLookup_cons]
  | cons p rest ih =>
      obtain ⟨k', v'⟩ := p
      rw [alistInsert_cons]
      by_cases h : k' = k
      · rw [if_pos h, alistLookup_cons, if_pos rfl]
      · rw [if_neg h, alistLookup_cons, if_neg h]
        exact ih

lemma alistLookup_insert_ne {K V : Type} [DecidableEq K] (m : List (K × V)) (k0 k : K) (v : V)
    (h : k0 ≠ k) : alistLookup (alistInsert m k0 v) k = alistLookup m k := by
  induction m with
  | nil => simp [alistInsert_nil, alistLookup_cons, alistLookup_nil, h]
  | cons p rest ih =>
      obtain ⟨k', v'⟩ := p
      rw [alistInsert_cons]
      by_cases h' : k' = k0
      · subst h'
        rw [if_pos rfl, alistLookup_cons, alistLookup_cons, if_neg h, if_neg h]
      · rw [if_neg h', alistLookup_cons, alistLookup_cons]
        by_cases h'' : k' = k
        · rw [if_pos h'', if_pos h'']
        · rw [if_neg h'', if_neg h'']
          exact ih

lemma mem_alistInsert {K V : Type} [DecidableEq K] (m : List (K × V)) (k : K) (v : V)
    (p : K × V) (h : p ∈ alistInsert m k v) : p = (k, v) ∨ p ∈ m := by
  induction m with
  | nil =>
      rw [alistInsert_nil] at h
      exact Or.inl (List.mem_singleton.mp h)
  | cons q rest ih =>
      obtain ⟨k', v'⟩ := q
      rw [alistInsert_cons] at h
      by_cases h' : k' = k
      · rw [if_pos h'] at h
        rcases List.mem_cons.mp h with h | h
        · exact Or.inl h
        · exact Or.inr (List.mem_cons_of_mem _ h)
      · rw [if_neg h'] at h
        rcases List.mem_cons.mp h with h | h
        · exact Or.inr (by rw [h]; exact List.mem_cons_self _ _)
        · rcases ih h with h | h
          · exact Or.inl h
          · exact Or.inr (List.mem_cons_of_mem _ h)

lemma alistLookup_mem {K V : Type} [DecidableEq K] (m : List (K × V)) (k : K) (v : V)
    (h : alistLookup m k = some v) : (k, v) ∈ m := by
  induction m with
  | nil => exact absurd h (by rw [alistLookup_nil]; exact Option.noConfusion)
  | cons q rest ih =>
      obtain ⟨k', v'⟩ := q
      rw [alistLookup_cons] at h
      by_cases h' : k' = k
      · rw [if_pos h'] at h
        have hv : v' = v := Option.some.inj h
        rw [← h', ← hv]
        exact List.mem_cons_self _ _
      · rw [if_neg h'] at h
        exact List.mem_cons_of_mem _ (ih h)

lemma alistLookup_eq_none_of_not_mem_keys {K V : Type} [DecidableEq K] (m : List (K × V))
    (k : K) (h : k ∉ m.map Prod.fst) : alistLookup m k = none := by
  induction m with
  | nil => rfl
  | cons q rest ih =>
      obtain ⟨k', v'⟩ := q
      simp only [List.map_cons, List.mem_cons] at h
      push_neg at h
      have hne : ¬ k' = k := fun hk => (by simpa using h.1 : ¬ k = k') hk.symm
      rw [alistLookup_cons, if_neg hne]
      exact ih h.2

lemma alistLookup_filter_eq_none {K V : Type} [DecidableEq K] (m : List (K × V)) (k : K)
    (v : V) (pred : K × V → Bool) (hnd : (m.map Prod.fst).Nodup)
    (hl : alistLookup m k = some v) (hp : pred (k, v) = false) :
    alistLookup (m.filter pred) k = none := by
  induction m with
  | nil => exact absurd hl (by rw [alistLookup_nil]; exact Option.noConfusion)
  | cons q rest ih =>
      obtain ⟨k', v'⟩ := q
      simp only [List.map_cons, List.nodup_cons] at hnd
      rw [alistLookup_cons] at hl
      by_cases h' : k' = k
      · subst h'
        rw [if_pos rfl] at hl
        have hv : v' = v := Option.some.inj hl
        subst hv
        rw [List.filter_cons, if_neg (by simp [hp])]
        refine alistLookup_eq_none_of_not_mem_keys _ _ (fun hk => hnd.1 ?_)
        rcases List.mem_map.mp hk with ⟨p, hpMem, hpk⟩
        exact List.mem_map.mpr ⟨p, (List.mem_filter.mp hpMem).1, hpk⟩
      · rw [if_neg h'] at hl
        rw [List.filter_cons]
        by_cases hq : pred (k', v') = true
        · rw [if_pos (by simp [hq]), alistLookup_cons, if_neg h']
          exact ih hnd.2 hl
        · rw [if_neg (by simpa using hq)]
          exact ih hnd.2 hl

/-! Unfolding lemmas for `SimpleCache.update`. -/

lemma update_eq_of_lookup_some {V : Type} (hash : V → Nat) (c : SimpleCache V) (k : String)
    (v : V) (t : Int) (e : CacheEntry V)
    (hE : alistLookup (c.cleanup t).label_to_tuple k = some e) :
    SimpleCache.update hash c k v t =
      if hash v = hash e.value then
        (e.value, (c.cleanup t).withTable
          (alistInsert (c.cleanup t).label_to_tuple k ⟨e.create_timestamp, t, e.value⟩))
      else
        (v, (c.cleanup t).withTable
          (alistInsert (c.cleanup t).label_to_tuple k ⟨t, t, v⟩)) := by
  simp only [SimpleCache.update, hE, SimpleCache.withTable]

lemma update_eq_of_lookup_none {V : Type} (hash : V → Nat) (c : SimpleCache V) (k : String)
    (v : V) (t : Int)
    (hE : alistLookup (c.cleanup t).label_to_tuple k = none) :
    SimpleCache.update hash c k v t =
      (v, (c.cleanup t).withTable
        (alistInsert (c.cleanup t).label_to_tuple k ⟨t, t, v⟩)) := by
  simp only [SimpleCache.update, hE, SimpleCache.withTable]

/-- Whatever branch `update` takes, its new table is the cleaned table with
one entry assigned at the updated key, and that entry's creation time is
either `t` or that of an entry surviving the cleanup. -/
lemma update_map_shape {V : Type} (hash : V → Nat) (c : SimpleCache V) (k0 : String)
    (v : V) (t : Int) :
    ∃ en : CacheEntry V,
      (SimpleCache.update hash c k0 v t).2.label_to_tuple
        = alistInsert (c.cleanup t).label_to_tuple k0 en
      ∧ (en.create_timestamp = t
        ∨ ∃ e, alistLookup (c.cleanup t).label_to_tuple k0 = some e
            ∧ en.create_timestamp = e.create_timestamp) := by
  rcases hE : alistLookup (c.cleanup t).label_to_tuple k0 with _ | e
  · refine ⟨⟨t, t, v⟩, ?_, Or.inl rfl⟩
    rw [update_eq_of_lookup_none hash c k0 v t hE]
    rfl
  · by_cases hH : hash v = hash e.value
    · refine ⟨⟨e.create_timestamp, t, e.value⟩, ?_, ?_⟩
      · rw [update_eq_of_lookup_some hash c k0 v t e hE, if_pos hH]
        rfl
      · exact Or.inr ⟨e, rfl, rfl⟩
    · refine ⟨⟨t, t, v⟩, ?_, Or.inl rfl⟩
      rw [update_eq_of_lookup_some hash c k0 v t e hE, if_neg hH]
      rfl

/-- Entries surviving `cleanup` were created after the cleanup threshold. -/
lemma mem_cleanup_create_gt {V : Type} (c : SimpleCache V) (t : Int) (p : String × CacheEntry V)
    (h : p ∈ (c.cleanup t).label_to_tuple) :
    t - c.data_cleanup_age_seconds < p.2.create_timestamp := by
  have := (List.mem_filter.mp h).2
  simpa using this

/-- One `metadata=None` call of `add_relation` writes the key's timestamp to
the current map and appends exactly one relation record. -/
lemma apply_rel_add_eq (g : ContextGraph) (now : String) (i : RelAdd) :
    apply_rel_add g now i
      = { g with
            current_relations_to_timestamps :=
              tsInsert g.current_relations_to_timestamps i.key
                (inherited_timestamp g.previous_relations_to_timestamps i.key now),
            context_relations :=
              g.context_relations
                ++ [build_relation g.version i
                      (inherited_timestamp g.previous_relations_to_timestamps i.key now)] } :=
  rfl

/-! Claim theorems. -/

/-- C10: every `add_relation` call with a non-None metadata dictionary raises
(the nonexistent `copy.deep_copy` yields an `AttributeError`); at that point
the `(source,target,kind) -> timestamp` entry has already been written into
the current-build timestamp map while the relation has not been appended, so
the relations list (and every other field) is unchanged but the timestamp map
is mutated — the operation is not atomic. -/
theorem add_relation_metadata_raises_after_map_write (g : ContextGraph)
    (nowTs s t k : String) (lbl : Option String) (md : Metadata) :
    ∃ g', g.add_relation nowTs s t k lbl (some md) = Except.error g'
      ∧ g'.context_relations = g.context_relations
      ∧ g'.current_relations_to_timestamps
          = tsInsert g.current_relations_to_timestamps (s, t, k)
              (inherited_timestamp g.previous_relations_to_timestamps (s, t, k) nowTs)
      ∧ g'.context_resources = g.context_resources
      ∧ g'.id_set = g.id_set
      ∧ g'.previous_relations_to_timestamps = g.previous_relations_to_timestamps
      ∧ g'.version = g.version :=
  ⟨_, rfl, rfl, rfl, rfl, rfl, rfl, rfl⟩

/-- C7: `dump` succeeds for the formats `dot` (DOT digraph text),
`context_graph` (full resources+relations success envelope) and `resources`
(resources-only envelope), but raises a `CollectorError` for `graph` — even
though the docstrings of `_do_compute_graph` and `compute_graph` list
`graph` among the valid output formats. -/
theorem dump_format_dispatch (g : ContextGraph) (nowTs : String) :
    g.dump nowTs "dot" = Except.ok (DumpOut.dot (g.to_dot_graph true))
  ∧ g.dump nowTs "context_graph" = Except.ok (DumpOut.graph (g.to_context_graph nowTs))
  ∧ g.dump nowTs "resources" = Except.ok (DumpOut.resources (g.to_context_resources nowTs))
  ∧ g.dump nowTs "graph" = Except.error "invalid dump() output_format: graph" := by
  refine ⟨rfl, ?_, ?_, ?_⟩ <;> simp [ContextGraph.dump]

/-- C4: calling `add_resource` again with an id that was already added is a
no-op, so after two calls with the same id the graph holds exactly one
resource with that id — the one built from the first call's annotations,
type, timestamp and properties, with `annotations.createdBy` stamped when a
build version is set — and the `resources` render shows exactly that one. -/
theorem add_resource_first_writer_wins (g : ContextGraph) (rid : String)
    (ann1 : Annotations) (ty1 ts1 : String) (p1 : Properties)
    (ann2 : Annotations) (ty2 ts2 : String) (p2 : Properties) (nowTs : String)
    (hid : rid ∉ g.id_set) (hres : ∀ r ∈ g.context_resources, r.id ≠ rid) :
    (g.add_resource rid ann1 ty1 ts1 p1).add_resource rid ann2 ty2 ts2 p2
        = g.add_resource rid ann1 ty1 ts1 p1
    ∧ (((g.add_resource rid ann1 ty1 ts1 p1).add_resource rid ann2 ty2 ts2
          p2).to_context_resources nowTs).resources.filter (fun r => r.id == rid)
        = [mk_resource g.version rid ann1 ty1 ts1 p1] := by
  have h1 : g.add_resource rid ann1 ty1 ts1 p1
      = { g with
          context_resources := g.context_resources ++ [mk_resource g.version rid ann1 ty1 ts1 p1],
          id_set := rid :: g.id_set } := by
    rw [ContextGraph.add_resource, if_neg hid]
  have h2 : (g.add_resource rid ann1 ty1 ts1 p1).add_resource rid ann2 ty2 ts2 p2
      = g.add_resource rid ann1 ty1 ts1 p1 := by
    rw [h1, ContextGraph.add_resource, if_pos (List.mem_cons_self rid g.id_set)]
  refine ⟨h2, ?_⟩
  rw [h2, h1]
  show ((g.context_resources ++ [mk_resource g.version rid ann1 ty1 ts1 p1]).filter
      (fun r => r.id == rid)) = [mk_resource g.version rid ann1 ty1 ts1 p1]
  rw [List.filter_append]
  have hnil : g.context_resources.filter (fun r => r.id == rid) = [] := by
    rw [List.filter_eq_nil_iff]
    intro r hr
    simpa using hres r hr
  rw [hnil]
  simp [mk_resource]

/-- Counterexample for C3: adding the same `(source, target, kind)` triple
twice in one build does *not* yield two relation entries with equal
timestamps when the triple is absent from the previous-build snapshot — each
call mints its own `now()` (the snapshot, consulted both times, never sees
the first call's write, which goes to the current-build map only). -/
theorem add_relation_duplicate_fresh_timestamps :
    let g0 : ContextGraph := {}
    let g2 := apply_rel_add (apply_rel_add g0 "T1" ⟨"s", "t", "contains", none⟩) "T2"
      ⟨"s", "t", "contains", none⟩
    tsLookup g0.previous_relations_to_timestamps ("s", "t", "contains") = none
    ∧ g2.context_relations.map Relation.timestamp = ["T1", "T2"]
    ∧ ("T1" : String) ≠ "T2" := by
  exact ⟨rfl, rfl, by decide⟩

/-- C3 (amended): every `add_relation(source, target, kind, label)` call with
`metadata=None` appends exactly one relation, whose timestamp is the
`(source,target,kind)` entry of the previous-build snapshot when that entry
is a valid non-empty string and the freshly minted `now()` of that call
otherwise; relations are never deduplicated, so the same triple added twice
yields two entries — with equal timestamps when the snapshot holds the
triple (both inherit it), and with the two independently minted `now()`
values otherwise.  (A call with non-None metadata raises and appends
nothing.) -/
theorem add_relation_always_appends (g : ContextGraph) (now1 now2 s t k : String)
    (lbl1 lbl2 : Option String) :
    (apply_rel_add (apply_rel_add g now1 ⟨s, t, k, lbl1⟩) now2
        ⟨s, t, k, lbl2⟩).context_relations
      = g.context_relations
        ++ [build_relation g.version ⟨s, t, k, lbl1⟩
              (inherited_timestamp g.previous_relations_to_timestamps (s, t, k) now1),
            build_relation g.version ⟨s, t, k, lbl2⟩
              (inherited_timestamp g.previous_relations_to_timestamps (s, t, k) now2)]
    ∧ (∀ ts0, tsLookup g.previous_relations_to_timestamps (s, t, k) = some ts0 → ts0 ≠ "" →
        inherited_timestamp g.previous_relations_to_timestamps (s, t, k) now1 = ts0
        ∧ inherited_timestamp g.previous_relations_to_timestamps (s, t, k) now2 = ts0) := by
  constructor
  · rw [apply_rel_add_eq, apply_rel_add_eq]
    simp [RelAdd.key, List.append_assoc]
  · intro ts0 h0 hne
    constructor <;>
      simp [inherited_timestamp, h0, valid_string, hne]

/-- Witness for C3 (amended): with the triple present in the previous-build
snapshot (value `"TS"`), both duplicate calls inherit `"TS"` and two relation
entries are appended. -/
theorem add_relation_always_appends_witness :
    (tsLookup ([((("s", "t", "contains") : RelKey), "TS")] : TsMap) ("s", "t", "contains")
        = some "TS")
    ∧ ("TS" : String) ≠ ""
    ∧ (apply_rel_add (apply_rel_add
          { previous_relations_to_timestamps := [((("s", "t", "contains") : RelKey), "TS")] }
          "T1" ⟨"s", "t", "contains", none⟩) "T2"
          ⟨"s", "t", "contains", none⟩).context_relations
      = [build_relation none ⟨"s", "t", "contains", none⟩ "TS",
         build_relation none ⟨"s", "t", "contains", none⟩ "TS"]
    ∧ inherited_timestamp ([((("s", "t", "contains") : RelKey), "TS")] : TsMap)
        ("s", "t", "contains") "T1" = "TS"
    ∧ inherited_timestamp ([((("s", "t", "contains") : RelKey), "TS")] : TsMap)
        ("s", "t", "contains") "T2" = "TS" := by
  have h := add_relation_always_appends
    { previous_relations_to_timestamps := [((("s", "t", "contains") : RelKey), "TS")] }
    "T1" "T2" "s" "t" "contains" none none
  have h2 := h.2 "TS" rfl (by decide)
  refine ⟨rfl, by decide, ?_, ?_, ?_⟩
  · rw [h.1]
    rw [show inherited_timestamp ([((("s", "t", "contains") : RelKey), "TS")] : TsMap)
        ("s", "t", "contains") "T1" = "TS" from h2.1]
    rw [show inherited_timestamp ([((("s", "t", "contains") : RelKey), "TS")] : TsMap)
        ("s", "t", "contains") "T2" = "TS" from h2.2]
    rfl
  · exact h2.1
  · exact h2.2

/-- Counterexample for C2: a key that is present in the cache with a
hash-equal value does not keep its `createTimestamp` when its entry is stale,
because `update` runs the cleanup before the hash check.  The entry for `"k"`
(created at time 0 by a regular `update`) is present and the re-sent value is
identical (so the timeless hashes agree), yet the `update` at `t = 10`
(seen that `cleanupAge = 10`) first purges it and then stores it as a fresh
entry with `createTimestamp = 10` instead of 0. -/
theorem update_hash_equal_entry_not_preserved :
    let hash : String → Nat := fun s => s.length
    let c0 : SimpleCache String := { max_data_age_seconds := 5, data_cleanup_age_seconds := 10 }
    let c1 := (SimpleCache.update hash c0 "k" "old" 0).2
    (alistLookup c1.label_to_tuple "k" = some ⟨0, 0, "old"⟩)
    ∧ hash "old" = hash "old"
    ∧ alistLookup (SimpleCache.update hash c1 "k" "old" 10).2.label_to_tuple "k"
        = some ⟨10, 10, "old"⟩ := by
  exact ⟨rfl, rfl, rfl⟩

/-- C2 (amended): for every key whose stored entry survives the purge that
`update(key, v', t)` performs first (its `createTimestamp` is within
`cleanupAge` of `t`), a hash-equal `v'` keeps the stored value and
`createTimestamp` unchanged, sets `updateTimestamp` to `t`, and the call
returns the old stored value; when the hashes differ or the key is absent
after the purge, the call stores `v'` with both timestamps set to `t` and
returns `v'`. -/
theorem update_content_hash_semantics {V : Type} (hash : V → Nat) (c : SimpleCache V)
    (k : String) (v : V) (t : Int) :
    (∀ e, alistLookup (c.cleanup t).label_to_tuple k = some e → hash v = hash e.value →
        (SimpleCache.update hash c k v t).1 = e.value
      ∧ alistLookup (SimpleCache.update hash c k v t).2.label_to_tuple k
          = some ⟨e.create_timestamp, t, e.value⟩)
  ∧ (alistLookup (c.cleanup t).label_to_tuple k = none →
        (SimpleCache.update hash c k v t).1 = v
      ∧ alistLookup (SimpleCache.update hash c k v t).2.label_to_tuple k = some ⟨t, t, v⟩)
  ∧ (∀ e, alistLookup (c.cleanup t).label_to_tuple k = some e → hash v ≠ hash e.value →
        (SimpleCache.update hash c k v t).1 = v
      ∧ alistLookup (SimpleCache.update hash c k v t).2.label_to_tuple k = some ⟨t, t, v⟩) := by
  refine ⟨?_, ?_, ?_⟩
  · intro e hE hH
    rw [update_eq_of_lookup_some hash c k v t e hE, if_pos hH]
    exact ⟨rfl, alistLookup_insert_self _ _ _⟩
  · intro hE
    rw [update_eq_of_lookup_none hash c k v t hE]
    exact ⟨rfl, alistLookup_insert_self _ _ _⟩
  · intro e hE hH
    rw [update_eq_of_lookup_some hash c k v t e hE, if_neg hH]
    exact ⟨rfl, alistLookup_insert_self _ _ _⟩

/-- Witness for C2 (amended): a surviving entry for `"k"` (created at 8,
`cleanupAge = 10`) updated at `t = 9` with a different but hash-equal value
keeps value and creation time, refreshes the update time, and the call
returns the old value. -/
theorem update_content_hash_semantics_witness :
    (alistLookup ((⟨5, 10, [("k", ⟨8, 8, "ab"⟩)]⟩ : SimpleCache String).cleanup 9).label_to_tuple
        "k" = some ⟨8, 8, "ab"⟩)
  ∧ (fun s : String => s.length) "xy" = (fun s : String => s.length) "ab"
  ∧ (SimpleCache.update (fun s : String => s.length)
        ⟨5, 10, [("k", ⟨8, 8, "ab"⟩)]⟩ "k" "xy" 9).1 = "ab"
  ∧ alistLookup (SimpleCache.update (fun s : String => s.length)
        ⟨5, 10, [("k", ⟨8, 8, "ab"⟩)]⟩ "k" "xy" 9).2.label_to_tuple "k" = some ⟨8, 9, "ab"⟩ := by
  have h := (update_content_hash_semantics (fun s : String => s.length)
    (⟨5, 10, [("k", ⟨8, 8, "ab"⟩)]⟩ : SimpleCache String) "k" "xy" 9).1
    ⟨8, 8, "ab"⟩ (by rfl) (by rfl)
  exact ⟨rfl, rfl, h.1, h.2⟩

/-- Counterexample for C5: an entry not refreshed for more than `cleanupAge`
seconds is not absent after *any* subsequent `update` call — an update for
that same key purges the stale entry but immediately stores a fresh one, so
the subsequent lookup succeeds instead of returning `(None, None)`.  Here
`"k"` was last refreshed at 0, `cleanupAge = 10`, and `update("k", "w", 20)`
leaves `"k"` present with the fresh value. -/
theorem stale_entry_same_key_update_not_absent :
    let hash : String → Nat := fun s => s.length
    let c0 : SimpleCache String := { max_data_age_seconds := 5, data_cleanup_age_seconds := 10 }
    let c1 := (SimpleCache.update hash c0 "k" "v" 0).2
    (alistLookup c1.label_to_tuple "k" = some ⟨0, 0, "v"⟩)
    ∧ c1.data_cleanup_age_seconds < (20 : Int) - 0
    ∧ (SimpleCache.update hash c1 "k" "w" 20).2.lookup "k" 20 = (some "w", some 20) := by
  exact ⟨rfl, by decide, rfl⟩

/-- C5 (amended): every `update(key, value, t)` call purges all entries whose
`createTimestamp` is at least `cleanupAge` old at `t`, regardless of
`maxAge`: afterwards every entry of the cache was created within `cleanupAge`
of `t`.  Consequently an entry (with `createTimestamp ≤ updateTimestamp`, as
every entry produced by time-monotone updates) that was not refreshed for
more than `cleanupAge` seconds before `t` is absent after an update at `t`
for any *other* key — its lookup returns `(None, None)` even before
considering freshness.  (An update for the stale key itself also purges the
old entry but stores a fresh one in its place.) -/
theorem update_cleanup_purges_stale {V : Type} (hash : V → Nat) (c : SimpleCache V)
    (k0 : String) (v : V) (t : Int) :
    (0 ≤ c.data_cleanup_age_seconds →
      ∀ p ∈ (SimpleCache.update hash c k0 v t).2.label_to_tuple,
        t - c.data_cleanup_age_seconds ≤ p.2.create_timestamp)
  ∧ (∀ k, k ≠ k0 → (c.label_to_tuple.map Prod.fst).Nodup →
      ∀ e, alistLookup c.label_to_tuple k = some e →
        e.create_timestamp ≤ e.update_timestamp →
        c.data_cleanup_age_seconds < t - e.update_timestamp →
        alistLookup (SimpleCache.update hash c k0 v t).2.label_to_tuple k = none
        ∧ ∀ now, (SimpleCache.update hash c k0 v t).2.lookup k now = (none, none)) := by
  obtain ⟨en, hmap, hen⟩ := update_map_shape hash c k0 v t
  constructor
  · intro h0 p hp
    rw [hmap] at hp
    rcases mem_alistInsert _ _ _ _ hp with hpe | hpc
    · rcases hen with ht | ⟨e, hEl, hc⟩
      · rw [hpe]
        simpa [ht] using by omega
      · have hmem := alistLookup_mem _ _ _ hEl
        have h3 : t - c.data_cleanup_age_seconds < e.create_timestamp :=
          mem_cleanup_create_gt c t (k0, e) hmem
        rw [hpe]
        show t - c.data_cleanup_age_seconds ≤ en.create_timestamp
        rw [hc]
        omega
    · exact le_of_lt (mem_cleanup_create_gt c t p hpc)
  · intro k hk hnd e hE hce hcu
    have hpred : (fun p : String × CacheEntry V =>
        decide (t - c.data_cleanup_age_seconds < p.2.create_timestamp)) (k, e) = false := by
      simp only [decide_eq_false_iff_not]
      omega
    have hclean : alistLookup (c.cleanup t).label_to_tuple k = none := by
      exact alistLookup_filter_eq_none c.label_to_tuple k e _ hnd hE hpred
    have hafter : alistLookup (SimpleCache.update hash c k0 v t).2.label_to_tuple k = none := by
      rw [hmap, alistLookup_insert_ne _ _ _ _ (fun h => hk h.symm)]
      exact hclean
    refine ⟨hafter, fun now => ?_⟩
    simp only [SimpleCache.lookup, hafter]

/-- Witness for C5 (amended): a two-entry cache where `"a"` was refreshed at
0 and `"b"` at 20; an `update` of `"b"` at `t = 20` (cleanupAge 10) removes
`"a"` and its lookup returns `(None, None)`. -/
theorem update_cleanup_purges_stale_witness :
    (0 ≤ (⟨5, 10, [("a", ⟨0, 0, "v"⟩), ("b", ⟨20, 20, "w"⟩)]⟩ :
        SimpleCache String).data_cleanup_age_seconds)
  ∧ ("a" ≠ "b")
  ∧ ((⟨5, 10, [("a", ⟨0, 0, "v"⟩), ("b", ⟨20, 20, "w"⟩)]⟩ :
        SimpleCache String).label_to_tuple.map Prod.fst).Nodup
  ∧ (∀ p ∈ (SimpleCache.update (fun s : String => s.length)
        ⟨5, 10, [("a", ⟨0, 0, "v"⟩), ("b", ⟨20, 20, "w"⟩)]⟩ "b" "w" 20).2.label_to_tuple,
        (20 : Int) - 10 ≤ p.2.create_timestamp)
  ∧ alistLookup (SimpleCache.update (fun s : String => s.length)
        ⟨5, 10, [("a", ⟨0, 0, "v"⟩), ("b", ⟨20, 20, "w"⟩)]⟩ "b" "w" 20).2.label_to_tuple "a"
      = none
  ∧ ∀ now, (SimpleCache.update (fun s : String => s.length)
        ⟨5, 10, [("a", ⟨0, 0, "v"⟩), ("b", ⟨20, 20, "w"⟩)]⟩ "b" "w" 20).2.lookup "a" now
      = (none, none) := by
  have h := update_cleanup_purges_stale (fun s : String => s.length)
    (⟨5, 10, [("a", ⟨0, 0, "v"⟩), ("b", ⟨20, 20, "w"⟩)]⟩ : SimpleCache String) "b" "w" 20
  have h2 := h.2 "a" (by decide) (by decide) ⟨0, 0, "v"⟩ (by rfl) (by decide) (by decide)
  exact ⟨by decide, by decide, by decide, h.1 (by decide), h2.1, h2.2⟩

/-- Witness for C4: the dedup theorem applied to the empty graph and the
resource id `"R1"`, added twice with different payloads. -/
theorem add_resource_first_writer_wins_witness :
    ("R1" ∉ ({} : ContextGraph).id_set)
  ∧ (∀ r ∈ ({} : ContextGraph).context_resources, r.id ≠ "R1")
  ∧ ((({} : ContextGraph).add_resource "R1" { label := some "l1" } "Pod" "T1" []).add_resource
        "R1" { label := some "l2" } "Node" "T2" []
      = ({} : ContextGraph).add_resource "R1" { label := some "l1" } "Pod" "T1" [])
  ∧ ((((({} : ContextGraph).add_resource "R1" { label := some "l1" } "Pod" "T1"
        []).add_resource "R1" { label := some "l2" } "Node" "T2"
        []).to_context_resources "T0").resources.filter (fun r => r.id == "R1")
      = [mk_resource none "R1" { label := some "l1" } "Pod" "T1" []]) := by
  have h1 : "R1" ∉ ({} : ContextGraph).id_set := by
    show "R1" ∉ ([] : List String)
    simp
  have h2 : ∀ r ∈ ({} : ContextGraph).context_resources, r.id ≠ "R1" := by
    intro r hr
    exact absurd hr (by simp [ContextGraph])
  have main := add_resource_first_writer_wins ({} : ContextGraph) "R1"
    { label := some "l1" } "Pod" "T1" [] { label := some "l2" } "Node" "T2" [] "T0" h1 h2
  exact ⟨h1, h2, main.1, main.2⟩

/-- C9: the Coordination State's elapsed-time recorder.  `add_elapsed`
appends one record to a bounded FIFO buffer — into a non-full buffer as a
plain append, and when full the oldest entry is dropped — so the buffer
never exceeds `MAX_ELAPSED_QUEUE_SIZE`; `get_elapsed` returns all buffered
records and empties the buffer, so a second immediate drain returns nothing
and each recorded entry is returned by at most one drain. -/
theorem elapsed_recorder_bounded_fifo (gs : GlobalState) (st : Int) (what : String)
    (dur : Int) (tid : Nat) :
    (gs.elapsed_queue.length < MAX_ELAPSED_QUEUE_SIZE →
      (gs.add_elapsed st what dur tid).elapsed_queue
        = gs.elapsed_queue ++ [⟨st, what, tid, dur⟩])
  ∧ (gs.elapsed_queue.length = MAX_ELAPSED_QUEUE_SIZE →
      (gs.add_elapsed st what dur tid).elapsed_queue
        = gs.elapsed_queue.tail ++ [⟨st, what, tid, dur⟩])
  ∧ (gs.add_elapsed st what dur tid).elapsed_queue.length ≤ MAX_ELAPSED_QUEUE_SIZE
  ∧ gs.get_elapsed.1 = gs.elapsed_queue
  ∧ gs.get_elapsed.2.elapsed_queue = []
  ∧ gs.get_elapsed.2.get_elapsed.1 = [] := by
  have hmax : MAX_ELAPSED_QUEUE_SIZE = 1000 := rfl
  refine ⟨?_, ?_, ?_, rfl, rfl, rfl⟩
  · intro h
    simp only [GlobalState.add_elapsed]
    rw [if_neg (by simp only [List.length_append, List.length_cons, List.length_nil]; omega)]
  · intro h
    simp only [GlobalState.add_elapsed]
    rw [if_pos (by simp only [List.length_append, List.length_cons, List.length_nil]; omega)]
    have hlen : (gs.elapsed_queue ++ [(⟨st, what, tid, dur⟩ : ElapsedRecord)]).length
        - MAX_ELAPSED_QUEUE_SIZE = 1 := by
      simp only [List.length_append, List.length_cons, List.length_nil]
      omega
    rw [hlen, List.drop_append_of_le_length (by omega), List.drop_one]
  · simp only [GlobalState.add_elapsed]
    split
    · rename_i hgt
      rw [List.length_drop]
      omega
    · rename_i hle
      simp only [List.length_append, List.length_cons, List.length_nil] at hle ⊢
      omega

/-- Witness for C9: appending to a one-record buffer keeps it, appending to a
full buffer of 1000 records drops the oldest. -/
theorem elapsed_recorder_bounded_fifo_witness :
    (({ elapsed_queue := [⟨7, "a", 1, 2⟩] } : GlobalState).elapsed_queue.length
        < MAX_ELAPSED_QUEUE_SIZE)
  ∧ (({ elapsed_queue := [⟨7, "a", 1, 2⟩] } : GlobalState).add_elapsed 8 "b" 3 4).elapsed_queue
      = [⟨7, "a", 1, 2⟩] ++ [⟨8, "b", 4, 3⟩]
  ∧ (({ elapsed_queue := List.replicate 1000 ⟨7, "a", 1, 2⟩ } :
        GlobalState).elapsed_queue.length = MAX_ELAPSED_QUEUE_SIZE)
  ∧ (({ elapsed_queue := List.replicate 1000 ⟨7, "a", 1, 2⟩ } :
        GlobalState).add_elapsed 8 "b" 3 4).elapsed_queue
      = (List.replicate 1000 (⟨7, "a", 1, 2⟩ : ElapsedRecord)).tail ++ [⟨8, "b", 4, 3⟩]
  ∧ ({ elapsed_queue := [⟨7, "a", 1, 2⟩] } : GlobalState).get_elapsed.2.get_elapsed.1 = [] := by
  have h1 := elapsed_recorder_bounded_fifo ({ elapsed_queue := [⟨7, "a", 1, 2⟩] } : GlobalState)
    8 "b" 3 4
  have h2 := elapsed_recorder_bounded_fifo
    ({ elapsed_queue := List.replicate 1000 ⟨7, "a", 1, 2⟩ } : GlobalState) 8 "b" 3 4
  have hlt : ([(⟨7, "a", 1, 2⟩ : ElapsedRecord)]).length < MAX_ELAPSED_QUEUE_SIZE := by
    decide
  have heq : (List.replicate 1000 (⟨7, "a", 1, 2⟩ : ElapsedRecord)).length
      = MAX_ELAPSED_QUEUE_SIZE := by
    rw [List.length_replicate]
    rfl
  exact ⟨hlt, h1.1 hlt, heq, h2.2.1 heq, h1.2.2.2.2.2⟩

/-- C6: a worker thread catches any exception a task raises, appends the
error message to the shared output queue, marks the task done, and keeps
pulling tasks — it processes every task ahead of the sentinel no matter how
many fail, exiting only at the sentinel; after the input queue drains, a
non-empty output queue makes the builder raise a `CollectorError` carrying
the first recorded message, and neither a render nor the timestamp-map
persist happens for that build. -/
theorem worker_catches_and_builder_raises (ts : List TaskOutcome)
    (rest : List (Option TaskOutcome)) (out0 : List String) (gs : GlobalState)
    (g : ContextGraph) (nowTs fmt : String) :
    worker (ts.map some ++ none :: rest) out0 = (out0 ++ worker_error_messages ts, ts.length)
  ∧ (∀ msg tl, worker_error_messages ts = msg :: tl →
      build_epilogue gs g nowTs fmt (worker_error_messages ts) = Except.error msg) := by
  constructor
  · induction ts generalizing out0 with
    | nil => simp [worker, worker_error_messages]
    | cons t rest' ih =>
        simp only [List.map_cons, List.cons_append, worker, List.append_eq]
        cases hm : task_error_message t with
        | none =>
            simp only [hm]
            rw [ih out0]
            simp [worker_error_messages, List.filterMap_cons, hm]
        | some m =>
            simp only [hm]
            rw [ih (out0 ++ [m])]
            simp [worker_error_messages, List.filterMap_cons, hm]
  · intro msg tl hmsg
    rw [hmsg]
    rfl

/-- Witness for C6: one succeeding and one `CollectorError`-raising task; the
worker completes both and exits at the sentinel, and the builder raises with
the first (only) recorded message. -/
theorem worker_catches_and_builder_raises_witness :
    worker [some TaskOutcome.ok, some (TaskOutcome.collector_error "boom"), none] []
      = (["boom"], 2)
  ∧ worker_error_messages [TaskOutcome.ok, TaskOutcome.collector_error "boom"] = ["boom"]
  ∧ build_epilogue {} {} "T" "dot" ["boom"] = Except.error "boom" := by
  have h := worker_catches_and_builder_raises
    [TaskOutcome.ok, TaskOutcome.collector_error "boom"] [] [] {} {} "T" "dot"
  refine ⟨?_, rfl, h.2 "boom" [] rfl⟩
  simpa using h.1

/-! Lemmas for the bounded-concurrency gate. -/

lemma get?_set_self {α : Type} (l : List α) (i : Nat) (a b : α) (h : l.get? i = some a) :
    (l.set i b).get? i = some b := by
  induction l generalizing i with
  | nil => exact absurd h (by simp)
  | cons x xs ih =>
      cases i with
      | zero => rfl
      | succ n => exact ih n h

lemma get?_set_other {α : Type} (l : List α) (i j : Nat) (b : α) (h : i ≠ j) :
    (l.set i b).get? j = l.get? j := by
  induction l generalizing i j with
  | nil => rfl
  | cons x xs ih =>
      cases i with
      | zero =>
          cases j with
          | zero => exact absurd rfl h
          | succ m => rfl
      | succ n =>
          cases j with
          | zero => rfl
          | succ m => exact ih n m (fun hh => h (by rw [hh]))

lemma phaseCount_set {l : List BuildPhase} {i : Nat} {a : BuildPhase} (b p : BuildPhase)
    (h : l.get? i = some a) :
    phaseCount p (l.set i b) + (if a = p then 1 else 0)
      = phaseCount p l + (if b = p then 1 else 0) := by
  induction l generalizing i with
  | nil => exact absurd h (by simp)
  | cons x xs ih =>
      cases i with
      | zero =>
          have hx : x = a := by simpa using h
          subst hx
          show (if b = p then 1 else 0) + phaseCount p xs + (if x = p then 1 else 0)
            = (if x = p then 1 else 0) + phaseCount p xs + (if b = p then 1 else 0)
          omega
      | succ n =>
          have h' : xs.get? n = some a := h
          show (if x = p then 1 else 0) + phaseCount p (xs.set n b) + (if a = p then 1 else 0)
            = (if x = p then 1 else 0) + phaseCount p xs + (if b = p then 1 else 0)
          have hrec := ih h'
          omega

lemma phaseCount_replicate_waiting (n : Nat) :
    phaseCount BuildPhase.building (List.replicate n BuildPhase.waiting) = 0 := by
  induction n with
  | zero => rfl
  | succ m ih => simp [List.replicate_succ, phaseCount, ih]

/-- Gate invariant: the semaphore count plus the number of in-flight builds
is exactly the gate capacity, in every reachable state. -/
lemma pool_invariant_of_reachable {n : Nat} {s : PoolState} (h : PoolReachable n s) :
    s.sem + phaseCount BuildPhase.building s.threads = MAX_CONCURRENT_COMPUTE_GRAPH := by
  induction h with
  | refl => simp [poolStart, phaseCount_replicate_waiting]
  | tail _ hstep ih =>
      cases hstep with
      | acquire sem ts i hw =>
          have hc := phaseCount_set BuildPhase.building BuildPhase.building hw
          simp at hc
          have ih' : sem + 1 + phaseCount BuildPhase.building ts
              = MAX_CONCURRENT_COMPUTE_GRAPH := ih
          show sem + phaseCount BuildPhase.building (ts.set i BuildPhase.building)
            = MAX_CONCURRENT_COMPUTE_GRAPH
          omega
      | finish sem ts i ok hb =>
          have hc := phaseCount_set BuildPhase.done BuildPhase.building hb
          simp at hc
          have ih' : sem + phaseCount BuildPhase.building ts
              = MAX_CONCURRENT_COMPUTE_GRAPH := ih
          show sem + 1 + phaseCount BuildPhase.building (ts.set i BuildPhase.done)
            = MAX_CONCURRENT_COMPUTE_GRAPH
          omega

/-- C8: the bounded-concurrency gate of `compute_graph`.  In every reachable
state of the gate at most `MAX_CONCURRENT_COMPUTE_GRAPH` (2) callers are
inside their build; the semaphore accounts exactly for the free slots; a
blocked caller can only remain blocked or enter its build (excess calls
block, they are never rejected); whenever a slot is free a blocked caller's
acquire step is enabled; and a builder always has its releasing exit step,
for a normally returning build (`ok = true`) and for a raising one
(`ok = false`) alike. -/
theorem compute_graph_bounded_concurrency (n : Nat) (s : PoolState)
    (h : PoolReachable n s) : pool_gate_properties s := by
  have hinv := pool_invariant_of_reachable h
  obtain ⟨sem, ts⟩ := s
  have hinv' : sem + phaseCount BuildPhase.building ts = MAX_CONCURRENT_COMPUTE_GRAPH := hinv
  refine ⟨?_, hinv', ?_, ?_, ?_⟩
  · show phaseCount BuildPhase.building ts ≤ MAX_CONCURRENT_COMPUTE_GRAPH
    omega
  · intro s' hstep i hw
    have hw' : ts.get? i = some BuildPhase.waiting := hw
    cases hstep with
    | acquire semc tsc j hj =>
        by_cases hij : j = i
        · subst hij
          exact Or.inr (get?_set_self ts j BuildPhase.waiting BuildPhase.building hj)
        · refine Or.inl ?_
          show (ts.set j BuildPhase.building).get? i = some BuildPhase.waiting
          rw [get?_set_other ts j i BuildPhase.building hij]
          exact hw'
    | finish semc tsc j ok hj =>
        by_cases hij : j = i
        · subst hij
          rw [hw'] at hj
          exact absurd (Option.some.inj hj) (by simp)
        · refine Or.inl ?_
          show (ts.set j BuildPhase.done).get? i = some BuildPhase.waiting
          rw [get?_set_other ts j i BuildPhase.done hij]
          exact hw'
  · intro i hw hcount
    have hw' : ts.get? i = some BuildPhase.waiting := hw
    have hcount' : phaseCount BuildPhase.building ts < MAX_CONCURRENT_COMPUTE_GRAPH := hcount
    have hsem : 0 < sem := by omega
    refine ⟨⟨sem - 1, ts.set i BuildPhase.building⟩, ?_, ?_⟩
    · have hstep := SemStep.acquire (sem - 1) ts i hw'
      have hsem1 : sem - 1 + 1 = sem := Nat.succ_pred_eq_of_pos hsem
      rw [hsem1] at hstep
      exact hstep
    · exact get?_set_self ts i BuildPhase.waiting BuildPhase.building hw'
  · intro i hb ok
    have hb' : ts.get? i = some BuildPhase.building := hb
    exact ⟨⟨sem + 1, ts.set i BuildPhase.done⟩, SemStep.finish sem ts i ok hb', rfl,
      get?_set_self ts i BuildPhase.building BuildPhase.done hb'⟩

/-- Witness for C8: with three callers, the state after one caller acquired
the gate is reachable and satisfies all gate properties. -/
theorem compute_graph_bounded_concurrency_witness :
    PoolReachable 3 ⟨1, [BuildPhase.building, BuildPhase.waiting, BuildPhase.waiting]⟩
  ∧ pool_gate_properties ⟨1, [BuildPhase.building, BuildPhase.waiting, BuildPhase.waiting]⟩ := by
  have hreach : PoolReachable 3
      ⟨1, [BuildPhase.building, BuildPhase.waiting, BuildPhase.waiting]⟩ :=
    Relation.ReflTransGen.single
      (SemStep.acquire 1 [BuildPhase.waiting, BuildPhase.waiting, BuildPhase.waiting] 0 rfl)
  exact ⟨hreach, compute_graph_bounded_concurrency 3 _ hreach⟩

/-! Lemmas for the cross-build relation-timestamp claims. -/

lemma tsLookup_insert_self (m : TsMap) (k : RelKey) (v : String) :
    tsLookup (tsInsert m k v) k = some v := alistLookup_insert_self m k v

lemma tsLookup_insert_ne (m : TsMap) (k0 k : RelKey) (v : String) (h : k0 ≠ k) :
    tsLookup (tsInsert m k0 v) k = tsLookup m k := alistLookup_insert_ne m k0 k v h

lemma set_relations_prev (g : ContextGraph) (d : TsMap) :
    (g.set_relations_to_timestamps d).previous_relations_to_timestamps = d := rfl

lemma set_relations_rels (g : ContextGraph) (d : TsMap) :
    (g.set_relations_to_timestamps d).context_relations = g.context_relations := rfl

lemma set_relations_version (g : ContextGraph) (d : TsMap) :
    (g.set_relations_to_timestamps d).version = g.version := rfl

lemma set_relations_current (g : ContextGraph) (d : TsMap) :
    (g.set_relations_to_timestamps d).current_relations_to_timestamps
      = g.current_relations_to_timestamps := rfl

lemma empty_graph_rels : ({} : ContextGraph).context_relations = [] := rfl

lemma empty_graph_version : ({} : ContextGraph).version = none := rfl

lemma empty_graph_current : ({} : ContextGraph).current_relations_to_timestamps = [] := rfl

lemma graph_get_rel (g : ContextGraph) :
    g.get_relations_to_timestamps = g.current_relations_to_timestamps := rfl

lemma gs_set_get (gs : GlobalState) (m : TsMap) :
    (gs.set_relations_to_timestamps m).get_relations_to_timestamps = m := rfl

/-- What one build's worth of `add_relation` calls does to the graph: the
previous-build snapshot and the version never change, the relations list is
extended by one record per call with the timestamps of `assign_ts`, and the
current-build map ends as `final_map` of those timestamps. -/
lemma run_rel_adds_spec (clock : Nat → String) (adds : List RelAdd) :
    ∀ (g : ContextGraph) (n : Nat),
      (run_rel_adds g clock n adds).previous_relations_to_timestamps
          = g.previous_relations_to_timestamps
      ∧ (run_rel_adds g clock n adds).version = g.version
      ∧ (run_rel_adds g clock n adds).context_relations
          = g.context_relations
            ++ zip_relations g.version adds
                (assign_ts g.previous_relations_to_timestamps clock n adds)
      ∧ (run_rel_adds g clock n adds).current_relations_to_timestamps
          = final_map g.current_relations_to_timestamps adds
              (assign_ts g.previous_relations_to_timestamps clock n adds) := by
  induction adds with
  | nil =>
      intro g n
      refine ⟨rfl, rfl, ?_, rfl⟩
      show g.context_relations = g.context_relations ++ []
      rw [List.append_nil]
  | cons i rest ih =>
      intro g n
      obtain ⟨hprev, hver, hrel, hcur⟩ := ih (apply_rel_add g (clock n) i) (n + 1)
      refine ⟨hprev, hver, ?_, ?_⟩
      · have step : run_rel_adds g clock n (i :: rest)
            = run_rel_adds (apply_rel_add g (clock n) i) clock (n + 1) rest := rfl
        rw [step, hrel, apply_rel_add_eq]
        simp [zip_relations, assign_ts, List.append_assoc]
      · have step : run_rel_adds g clock n (i :: rest)
            = run_rel_adds (apply_rel_add g (clock n) i) clock (n + 1) rest := rfl
        rw [step, hcur, apply_rel_add_eq]
        simp [final_map, assign_ts]

lemma assign_ts_length (prev : TsMap) (clock : Nat → String) :
    ∀ (adds : List RelAdd) (n : Nat), (assign_ts prev clock n adds).length = adds.length := by
  intro adds
  induction adds with
  | nil => intro n; rfl
  | cons i rest ih =>
      intro n
      show (assign_ts prev clock (n + 1) rest).length + 1 = rest.length + 1
      rw [ih (n + 1)]

lemma inherited_timestamp_ne_empty (prev : TsMap) (key : RelKey) (now : String)
    (h : now ≠ "") : inherited_timestamp prev key now ≠ "" := by
  simp only [inherited_timestamp]
  rcases hl : tsLookup prev key with _ | s
  · simpa [valid_string] using h
  · by_cases hs : s = ""
    · simpa [valid_string, hs] using h
    · simp [valid_string, hs]

lemma assign_ts_ne_empty (prev : TsMap) (clock : Nat → String) (hclk : ∀ m, clock m ≠ "") :
    ∀ (adds : List RelAdd) (n : Nat) (ts : String), ts ∈ assign_ts prev clock n adds →
      ts ≠ "" := by
  intro adds
  induction adds with
  | nil => intro n ts hts; exact absurd hts (by simp [assign_ts])
  | cons i rest ih =>
      intro n ts hts
      rcases List.mem_cons.mp hts with hts | hts
      · rw [hts]
        exact inherited_timestamp_ne_empty prev i.key (clock n) (hclk n)
      · exact ih (n + 1) ts hts

lemma final_map_lookup_of_not_mem (k : RelKey) :
    ∀ (adds : List RelAdd) (tss : List String) (m : TsMap), k ∉ adds.map RelAdd.key →
      tsLookup (final_map m adds tss) k = tsLookup m k := by
  intro adds
  induction adds with
  | nil => intro tss m _; cases tss <;> rfl
  | cons i rest ih =>
      intro tss m h
      cases tss with
      | nil => rfl
      | cons t tss' =>
          simp only [List.map_cons, List.mem_cons] at h
          push_neg at h
          show tsLookup (final_map (tsInsert m i.key t) rest tss') k = tsLookup m k
          rw [ih tss' _ h.2]
          exact tsLookup_insert_ne m i.key k t (fun hh => h.1 hh.symm)

lemma final_map_lookup_forall₂ :
    ∀ (adds : List RelAdd) (tss : List String) (m : TsMap),
      adds.length = tss.length → (adds.map RelAdd.key).Nodup →
      List.Forall₂ (fun i ts => tsLookup (final_map m adds tss) i.key = some ts) adds tss := by
  intro adds
  induction adds with
  | nil =>
      intro tss m hlen _
      cases tss with
      | nil => exact List.Forall₂.nil
      | cons t tss' => simp at hlen
  | cons i rest ih =>
      intro tss m hlen hnd
      cases tss with
      | nil => simp at hlen
      | cons t tss' =>
          simp only [List.map_cons, List.nodup_cons] at hnd
          have hlen' : rest.length = tss'.length := by simpa using hlen
          have hhead : tsLookup (final_map m (i :: rest) (t :: tss')) i.key = some t := by
            show tsLookup (final_map (tsInsert m i.key t) rest tss') i.key = some t
            rw [final_map_lookup_of_not_mem i.key rest tss' _ hnd.1]
            exact tsLookup_insert_self m i.key t
          exact List.Forall₂.cons hhead (ih tss' (tsInsert m i.key t) hlen' hnd.2)

lemma assign_ts_of_lookup (m1 : TsMap) (clock2 : Nat → String) :
    ∀ (adds : List RelAdd) (tss : List String),
      List.Forall₂ (fun i ts => tsLookup m1 i.key = some ts) adds tss →
      (∀ ts ∈ tss, ts ≠ "") →
      ∀ (n : Nat), assign_ts m1 clock2 n adds = tss := by
  intro adds tss hF
  induction hF with
  | nil => intro _ n; rfl
  | @cons i ts rest tss' hts _ ih =>
      intro hne n
      show inherited_timestamp m1 i.key (clock2 n) :: assign_ts m1 clock2 (n + 1) rest
        = ts :: tss'
      have h1 : inherited_timestamp m1 i.key (clock2 n) = ts := by
        simp only [inherited_timestamp, hts]
        have hts' : ts ≠ "" := hne ts (List.mem_cons_self _ _)
        simp [valid_string, hts']
      rw [h1, ih (fun x hx => hne x (List.mem_cons_of_mem _ hx)) (n + 1)]

/-- C1 (amended): after a successful build, `_do_compute_graph` persists the
accumulator's current `(source,target,kind) -> timestamp` map into the
Coordination State via `set_relations_to_timestamps`, and the next build
seeds its snapshot from it; provided no triple is added more than once
within the build (and `now()` never mints an empty string), rebuilding with
the same `add_relation` calls yields relations identical to the first
build's, timestamps included.  (When a triple repeats within a build, each
occurrence mints its own `now()` in the first build but all occurrences
inherit the last minted value in the second, so the renders differ.) -/
theorem relation_timestamps_stable_across_builds (gs0 : GlobalState) (adds : List RelAdd)
    (clock1 clock2 : Nat → String)
    (hnd : (adds.map RelAdd.key).Nodup) (hclk : ∀ m, clock1 m ≠ "") :
    (compute_graph_relations gs0 adds clock1).2.relations_to_timestamps
      = (compute_graph_relations gs0 adds clock1).1.get_relations_to_timestamps
  ∧ (compute_graph_relations (compute_graph_relations gs0 adds clock1).2 adds
        clock2).1.context_relations
      = (compute_graph_relations gs0 adds clock1).1.context_relations := by
  refine ⟨rfl, ?_⟩
  have hcomp1st : (compute_graph_relations gs0 adds clock1).1
      = run_rel_adds (ContextGraph.set_relations_to_timestamps {}
          gs0.get_relations_to_timestamps) clock1 0 adds := rfl
  have hcomp2nd : (compute_graph_relations (compute_graph_relations gs0 adds clock1).2 adds
        clock2).1
      = run_rel_adds (ContextGraph.set_relations_to_timestamps {}
          (run_rel_adds (ContextGraph.set_relations_to_timestamps {}
            gs0.get_relations_to_timestamps) clock1 0 adds).get_relations_to_timestamps)
          clock2 0 adds := rfl
  rw [hcomp1st, hcomp2nd]
  obtain ⟨hprev1, hver1, hrel1, hcur1⟩ := run_rel_adds_spec clock1 adds
    (ContextGraph.set_relations_to_timestamps {} gs0.get_relations_to_timestamps) 0
  obtain ⟨hprev2, hver2, hrel2, hcur2⟩ := run_rel_adds_spec clock2 adds
    (ContextGraph.set_relations_to_timestamps {}
      (run_rel_adds (ContextGraph.set_relations_to_timestamps {}
        gs0.get_relations_to_timestamps) clock1 0 adds).get_relations_to_timestamps) 0
  rw [hrel1, hrel2]
  simp only [set_relations_prev, set_relations_rels, set_relations_version,
    set_relations_current, empty_graph_rels, empty_graph_version, empty_graph_current,
    graph_get_rel, List.nil_append] at hcur1 ⊢
  have hlen : adds.length = (assign_ts gs0.get_relations_to_timestamps clock1 0 adds).length :=
    (assign_ts_length gs0.get_relations_to_timestamps clock1 adds 0).symm
  have hF := final_map_lookup_forall₂ adds
    (assign_ts gs0.get_relations_to_timestamps clock1 0 adds) [] hlen hnd
  rw [← hcur1] at hF
  have hne : ∀ ts ∈ assign_ts gs0.get_relations_to_timestamps clock1 0 adds, ts ≠ "" :=
    fun ts hts => assign_ts_ne_empty gs0.get_relations_to_timestamps clock1 hclk adds 0 ts hts
  rw [assign_ts_of_lookup
    (run_rel_adds (ContextGraph.set_relations_to_timestamps {}
      gs0.get_relations_to_timestamps) clock1 0 adds).current_relations_to_timestamps
    clock2 adds (assign_ts gs0.get_relations_to_timestamps clock1 0 adds) hF hne 0]

/-- Counterexample for C1: when the same triple is added twice in one build,
the rebuild does not reproduce the first build's relation timestamps.  The
first build mints a fresh `now()` per call (`T0` then `T1`) and its
persisted map keeps only the last write, so the second build renders both
relations with `T1`. -/
theorem relation_timestamps_not_identical_with_duplicates :
    let adds : List RelAdd := [⟨"a", "b", "contains", none⟩, ⟨"a", "b", "contains", none⟩]
    let clock1 : Nat → String := fun n => "T" ++ toString n
    let clock2 : Nat → String := fun _ => "T9"
    let r1 := compute_graph_relations {} adds clock1
    let r2 := compute_graph_relations r1.2 adds clock2
    r1.1.context_relations.map Relation.timestamp = ["T0", "T1"]
    ∧ r2.1.context_relations.map Relation.timestamp = ["T1", "T1"]
    ∧ r2.1.context_relations.map Relation.timestamp
        ≠ r1.1.context_relations.map Relation.timestamp := by
  refine ⟨rfl, rfl, by decide⟩

/-- Witness for C1 (amended): two distinct triples, distinct clocks in the
two builds; the persisted map is read back and the second build's relations
equal the first build's. -/
theorem relation_timestamps_stable_across_builds_witness :
    ((([⟨"a", "b", "contains", none⟩, ⟨"c", "d", "runs", none⟩] :
        List RelAdd).map RelAdd.key).Nodup)
  ∧ (∀ m : Nat, (fun _ : Nat => "TA") m ≠ "")
  ∧ (compute_graph_relations {} [⟨"a", "b", "contains", none⟩, ⟨"c", "d", "runs", none⟩]
        (fun _ => "TA")).2.relations_to_timestamps
      = (compute_graph_relations {} [⟨"a", "b", "contains", none⟩, ⟨"c", "d", "runs", none⟩]
          (fun _ => "TA")).1.get_relations_to_timestamps
  ∧ (compute_graph_relations
        (compute_graph_relations {} [⟨"a", "b", "contains", none⟩, ⟨"c", "d", "runs", none⟩]
          (fun _ => "TA")).2
        [⟨"a", "b", "contains", none⟩, ⟨"c", "d", "runs", none⟩]
        (fun _ => "TB")).1.context_relations
      = (compute_graph_relations {} [⟨"a", "b", "contains", none⟩, ⟨"c", "d", "runs", none⟩]
          (fun _ => "TA")).1.context_relations := by
  have h := relation_timestamps_stable_across_builds {}
    [⟨"a", "b", "contains", none⟩, ⟨"c", "d", "runs", none⟩]
    (fun _ => "TA") (fun _ => "TB") (by decide) (fun m => by simp)
  exact ⟨by decide, fun m => by simp, h.1, h.2⟩

end ClusterInsight
